import Mathlib

/-!
Verification development for the slingshot bubble-shooter engine
(`src/components/GeminiSlingshot.tsx` and the strategy service module).

Shallow embedding conventions:
* Pixel coordinates are rationals.  The source constant
  `ROW_HEIGHT = BUBBLE_RADIUS * Math.sqrt(3)` is irrational, so every
  definition that needs it takes an explicit `rowHeight : ℚ` parameter and
  the theorems quantify over it (with the positivity that `22·√3` enjoys);
  nothing in the verified properties depends on its exact value.
* The source compares Euclidean distances obtained with `Math.sqrt`; since
  `sqrt` is monotone on nonnegative reals, the embedding compares squared
  distances instead, keeping every definition executable over `ℚ`.
* Mutation of the bubble array is modelled by returning the updated list;
  bubble identity (`b.id`, a string in the source) is modelled by a natural
  number key.
-/

/-- Palette of bubble colors (`COLOR_KEYS` in the source). -/
inductive BubbleColor where
  | red | blue | green | yellow | purple | orange
deriving DecidableEq, Repr

/-- Point value of each color (`COLOR_CONFIG[...].points`). -/
def colorPoints : BubbleColor → ℕ
  | .red => 100
  | .blue => 150
  | .green => 200
  | .yellow => 250
  | .purple => 300
  | .orange => 500

/-- Grid token (`Bubble` in the source): id, cell address, pixel position,
color and the active flag. -/
structure Bubble where
  id : ℕ
  row : ℕ
  col : ℕ
  x : ℚ
  y : ℚ
  color : BubbleColor
  active : Bool
deriving DecidableEq, Repr

def BUBBLE_RADIUS : ℚ := 22

def GRID_COLS : ℕ := 12

def GRID_ROWS : ℕ := 14

/-- Number of columns of a row: odd rows have `GRID_COLS - 1`, even rows
`GRID_COLS` (staggered hex layout, as in `addNewRow`/`initGrid` and the
landing scan). -/
def rowCols (r : ℕ) : ℕ := if r % 2 ≠ 0 then GRID_COLS - 1 else GRID_COLS

/-- Pixel position of a cell (`getBubblePos` in the source).  `rowHeight`
abstracts the irrational constant `BUBBLE_RADIUS * √3`. -/
def getBubblePos (rowHeight W : ℚ) (row col : ℕ) : ℚ × ℚ :=
  let xOffset : ℚ := (W - (GRID_COLS * BUBBLE_RADIUS * 2)) / 2 + BUBBLE_RADIUS
  let x : ℚ := xOffset + col * (BUBBLE_RADIUS * 2) +
    (if row % 2 ≠ 0 then BUBBLE_RADIUS else 0)
  (x, BUBBLE_RADIUS + row * rowHeight)

/-- Offset-hex adjacency (`isNeighbor` in the source). -/
def isNeighbor (a b : Bubble) : Bool :=
  let dr : ℤ := (b.row : ℤ) - (a.row : ℤ)
  let dc : ℤ := (b.col : ℤ) - (a.col : ℤ)
  if dr.natAbs > 1 then false
  else if dr = 0 then dc.natAbs = 1
  else if a.row % 2 ≠ 0 then dc = 0 ∨ dc = 1
  else dc = -1 ∨ dc = 0

/-- Squared Euclidean distance between two pixel points.  The source
compares `Math.sqrt` of this quantity; the comparisons are equivalent. -/
def distSq (p q : ℚ × ℚ) : ℚ := (p.1 - q.1) ^ 2 + (p.2 - q.2) ^ 2

/-- Row-major enumeration of all valid cells up to the row ceiling, exactly
the nested loop `for r in [0, GRID_ROWS) for c in [0, rowCols r)` of the
landing resolution. -/
def cellList : List (ℕ × ℕ) :=
  (List.range GRID_ROWS).flatMap fun r => (List.range (rowCols r)).map fun c => (r, c)

/-- Occupancy test used by the landing scan: some active bubble sits at the
cell. -/
def cellOccupied (bs : List Bubble) (r c : ℕ) : Bool :=
  bs.any fun b => b.active && b.row == r && b.col == c

/-- State of the best-cell scan: the (squared) best distance found so far
(`none` models the initial `Infinity`) and the best cell, whose components
default to `0` exactly as `bestRow = 0, bestCol = 0` in the source. -/
structure BestCell where
  dist? : Option ℚ
  row : ℕ
  col : ℕ
deriving DecidableEq, Repr

/-- One step of the landing scan over a candidate cell. -/
def scanStep (rowHeight W : ℚ) (bs : List Bubble) (p : ℚ × ℚ)
    (st : BestCell) (rc : ℕ × ℕ) : BestCell :=
  if cellOccupied bs rc.1 rc.2 then st
  else
    let d := distSq p (getBubblePos rowHeight W rc.1 rc.2)
    match st.dist? with
    | none => ⟨some d, rc.1, rc.2⟩
    | some bd => if d < bd then ⟨some d, rc.1, rc.2⟩ else st

/-- Nearest free cell to a pixel point: the scan inlined in the landing
resolution of `onResults` (keeps the first cell attaining the strictly
smallest distance, in row-major enumeration order). -/
def nearestFreeCell (rowHeight W : ℚ) (bs : List Bubble) (p : ℚ × ℚ) : ℕ × ℕ :=
  let st := cellList.foldl (scanStep rowHeight W bs p) ⟨none, 0, 0⟩
  (st.row, st.col)

/-- Neighbor symmetry is checkable on small cases. -/
example : isNeighbor ⟨0, 2, 3, 0, 0, .red, true⟩ ⟨1, 3, 3, 0, 0, .red, true⟩ =
    isNeighbor ⟨1, 3, 3, 0, 0, .red, true⟩ ⟨0, 2, 3, 0, 0, .red, true⟩ := by decide

/-- C6.  Adjacency symmetry: `isNeighbor a b = isNeighbor b a` for all
tokens, under the offset-hex rule of the source (`|Δrow| > 1` never a
neighbor, `Δrow = 0` requires `|Δcol| = 1`, `Δrow = ±1` uses the
parity-dependent column offsets). -/
theorem isNeighbor_symm (a b : Bubble) : isNeighbor a b = isNeighbor b a := by
  unfold isNeighbor
  rcases a with ⟨_, ra, ca, _, _, _, _⟩
  rcases b with ⟨_, rb, cb, _, _, _, _⟩
  simp only
  by_cases h1 : ((rb : ℤ) - ra).natAbs > 1
  · have h1' : ((ra : ℤ) - rb).natAbs > 1 := by omega
    simp [h1, h1']
  · have h1' : ¬ ((ra : ℤ) - rb).natAbs > 1 := by omega
    by_cases h2 : ((rb : ℤ) - ra) = 0
    · have h2' : ((ra : ℤ) - rb) = 0 := by omega
      have : ((cb : ℤ) - ca).natAbs = 1 ↔ ((ca : ℤ) - cb).natAbs = 1 := by omega
      simp [h1, h1', h2, h2', this]
    · have h2' : ¬ ((ra : ℤ) - rb) = 0 := by omega
      rcases Nat.even_or_odd ra with he | ho
      · have hra : ra % 2 = 0 := Nat.even_iff.mp he
        -- rows differ by exactly 1
        rcases (by omega : (rb : ℤ) = ra + 1 ∨ (rb : ℤ) = ra - 1) with hr | hr
        · have hrb : rb % 2 = 1 := by omega
          have : ((cb : ℤ) - ca = -1 ∨ (cb : ℤ) - ca = 0) ↔
              ((ca : ℤ) - cb = 0 ∨ (ca : ℤ) - cb = 1) := by omega
          simp [h1, h1', h2, h2', hra, hrb, this]
        · have hrb : rb % 2 = 1 := by omega
          have : ((cb : ℤ) - ca = -1 ∨ (cb : ℤ) - ca = 0) ↔
              ((ca : ℤ) - cb = 0 ∨ (ca : ℤ) - cb = 1) := by omega
          simp [h1, h1', h2, h2', hra, hrb, this]
      · have hra : ra % 2 = 1 := Nat.odd_iff.mp ho
        rcases (by omega : (rb : ℤ) = ra + 1 ∨ (rb : ℤ) = ra - 1) with hr | hr
        · have hrb : rb % 2 = 0 := by omega
          have : ((cb : ℤ) - ca = 0 ∨ (cb : ℤ) - ca = 1) ↔
              ((ca : ℤ) - cb = -1 ∨ (ca : ℤ) - cb = 0) := by omega
          simp [h1, h1', h2, h2', hra, hrb, this]
        · have hrb : rb % 2 = 0 := by omega
          have : ((cb : ℤ) - ca = 0 ∨ (cb : ℤ) - ca = 1) ↔
              ((ca : ℤ) - cb = -1 ∨ (ca : ℤ) - cb = 0) := by omega
          simp [h1, h1', h2, h2', hra, hrb, this]

/-- Worklist loop of `checkMatches`: pops a bubble, skips it if its id was
already visited, otherwise marks it visited and — when its color equals the
origin color `c0` — records it as a match and pushes every active,
unvisited neighbor from the grid.  The source pops from / pushes to the end
of a JS array (a stack); the embedding uses the list head as the stack top,
which explores the same worklist and computes the same match set.  `fuel`
is a structural-recursion bound; `checkMatches` supplies a value large
enough that it is never exhausted (`floodLoop_final` below). -/
def floodLoop (bs : List Bubble) (c0 : BubbleColor) :
    ℕ → List Bubble → List ℕ → List Bubble → List Bubble × List ℕ
  | _, [], visited, found => (found, visited)
  | 0, _ :: _, visited, found => (found, visited)
  | fuel + 1, curr :: rest, visited, found =>
    if visited.contains curr.id then
      floodLoop bs c0 fuel rest visited found
    else
      if curr.color = c0 then
        floodLoop bs c0 fuel
          ((bs.filter fun b =>
              b.active && !((curr.id :: visited).contains b.id) && isNeighbor curr b) ++ rest)
          (curr.id :: visited) (found ++ [curr])
      else
        floodLoop bs c0 fuel rest (curr.id :: visited) found

/-- Fuel that `checkMatches` hands to `floodLoop`; `floodLoop_final` shows
it is never exhausted when the loop starts from `[start]`. -/
def floodFuel (bs : List Bubble) : ℕ := bs.length * (bs.length + 1) + 1

/-- Match list computed by the flood fill of `checkMatches(start)`. -/
def matchList (bs : List Bubble) (start : Bubble) : List Bubble :=
  (floodLoop bs start.color (floodFuel bs) [start] [] []).1

/-- Visited-id set left behind by the flood fill of `checkMatches(start)`. -/
def visitedList (bs : List Bubble) (start : Bubble) : List ℕ :=
  (floodLoop bs start.color (floodFuel bs) [start] [] []).2

/-- Full effect of `checkMatches(start)` on the grid and the score: when at
least 3 bubbles match, each match is deactivated and the score grows by
`floor(found.length * points * multiplier * (len>3 ? 1.5 : 1) * accuracyBonus)`;
otherwise nothing changes.  Deactivation is keyed by id, matching the
in-place mutation of the matched array elements. -/
def checkMatches (bs : List Bubble) (start : Bubble)
    (multiplier accuracyBonus : ℚ) : List Bubble × ℤ :=
  let found := matchList bs start
  if 3 ≤ found.length then
    (bs.map fun b =>
        if (found.map Bubble.id).contains b.id then { b with active := false } else b,
     Rat.floor ((found.length : ℚ) * (colorPoints start.color : ℚ) * multiplier *
        (if 3 < found.length then 3 / 2 else 1) * accuracyBonus))
  else (bs, 0)

/-- One same-color flood step: from a bubble of the origin color to an
active grid neighbor. -/
def FloodStep (bs : List Bubble) (c0 : BubbleColor) (u v : Bubble) : Prop :=
  u.color = c0 ∧ v ∈ bs ∧ v.active = true ∧ isNeighbor u v = true

/-- Transitive same-color reachability from the origin: the
"color-contiguous region" of the specification. -/
def SameColorReach (bs : List Bubble) (start : Bubble) (b : Bubble) : Prop :=
  Relation.ReflTransGen (FloodStep bs start.color) start b

/-- Membership in the color-contiguous component of the origin. -/
def InComponent (bs : List Bubble) (start : Bubble) (b : Bubble) : Prop :=
  SameColorReach bs start b ∧ b.color = start.color

/-- Invariant of the `checkMatches` worklist, parameterized by the current
worklist, the visited id set and the accumulated matches.  The seven
conjuncts: worklist provenance, soundness of matches, visited ids belong to
active grid bubbles, visited same-color bubbles are matched, matched
bubbles have all their active neighbors scheduled or visited, the origin is
matched or still scheduled, and match ids are duplicate-free. -/
def floodInv (bs : List Bubble) (start : Bubble)
    (toCheck : List Bubble) (visited : List ℕ) (found : List Bubble) : Prop :=
  (∀ b ∈ toCheck, b ∈ bs ∧
      (b = start ∨ (b.active = true ∧ ∃ m ∈ found, isNeighbor m b = true))) ∧
  (∀ m ∈ found, m ∈ bs ∧ m.color = start.color ∧ SameColorReach bs start m ∧
      m.id ∈ visited ∧ m.active = true) ∧
  (∀ i ∈ visited, ∃ b ∈ bs, b.id = i ∧ b.active = true) ∧
  (∀ v ∈ bs, v.color = start.color → v.id ∈ visited → v ∈ found) ∧
  (∀ m ∈ found, ∀ v ∈ bs, v.active = true → isNeighbor m v = true →
      v.id ∈ visited ∨ v ∈ toCheck) ∧
  (start ∈ found ∨ (start ∈ toCheck ∧ start.id ∉ visited)) ∧
  (found.map Bubble.id).Nodup

/-- Termination potential of the worklist loop. -/
def floodPhi (bs : List Bubble) (toCheck : List Bubble) (visited : List ℕ) : ℕ :=
  ((bs.map Bubble.id).toFinset \ visited.toFinset).card * (bs.length + 1) +
    toCheck.length

/-- Distinct ids identify bubbles. -/
theorem bubble_id_inj {bs : List Bubble} (h : (bs.map Bubble.id).Nodup) :
    ∀ a ∈ bs, ∀ b ∈ bs, a.id = b.id → a = b := fun a ha b hb hab =>
  List.inj_on_of_nodup_map h ha hb hab

/-- Main loop lemma: starting from any state satisfying the invariant, with
fuel at least the potential, the loop finishes the worklist and its result
still satisfies the invariant (now with an empty worklist). -/
theorem floodLoop_final (bs : List Bubble) (start : Bubble)
    (hact : start.active = true) (hnodup : (bs.map Bubble.id).Nodup) :
    ∀ fuel toCheck visited found,
      floodInv bs start toCheck visited found →
      floodPhi bs toCheck visited ≤ fuel →
      floodInv bs start []
        (floodLoop bs start.color fuel toCheck visited found).2
        (floodLoop bs start.color fuel toCheck visited found).1 := by
  intro fuel
  induction fuel with
  | zero =>
    intro toCheck visited found hinv hphi
    cases toCheck with
    | nil => simpa [floodLoop] using hinv
    | cons curr rest =>
      exfalso
      simp only [floodPhi, List.length_cons] at hphi
      omega
  | succ fuel ih =>
    intro toCheck visited found hinv hphi
    cases toCheck with
    | nil => simpa [floodLoop] using hinv
    | cons curr rest =>
      obtain ⟨h1, h2, h3, h4, h5, h6, h7⟩ := hinv
      have hcurr_bs : curr ∈ bs := (h1 curr (List.mem_cons_self _ _)).1
      have hcurr_src := (h1 curr (List.mem_cons_self _ _)).2
      have hidmem : curr.id ∈ (bs.map Bubble.id).toFinset :=
        List.mem_toFinset.mpr (List.mem_map.mpr ⟨curr, hcurr_bs, rfl⟩)
      by_cases hv : visited.contains curr.id = true
      · -- already visited: skip
        simp only [floodLoop, if_pos hv]
        apply ih
        · refine ⟨fun b hb => h1 b (List.mem_cons_of_mem _ hb), h2, h3, h4, ?_, ?_, h7⟩
          · intro m hm v hvbs hvact hnb
            rcases h5 m hm v hvbs hvact hnb with h | h
            · exact Or.inl h
            · rcases List.mem_cons.mp h with rfl | h
              · exact Or.inl (List.elem_iff.mp hv)
              · exact Or.inr h
          · rcases h6 with h | ⟨hs, hns⟩
            · exact Or.inl h
            · rcases List.mem_cons.mp hs with rfl | hs
              · exact absurd (List.elem_iff.mp hv) hns
              · exact Or.inr ⟨hs, hns⟩
        · simp only [floodPhi, List.length_cons] at hphi ⊢
          omega
      · have hvnot : curr.id ∉ visited := by simpa using hv
        have hcurr_act : curr.active = true := by
          rcases hcurr_src with rfl | ⟨h, _⟩
          · exact hact
          · exact h
        have hsd : curr.id ∈ (bs.map Bubble.id).toFinset \ visited.toFinset :=
          Finset.mem_sdiff.mpr ⟨hidmem, fun h => hvnot (List.mem_toFinset.mp h)⟩
        have hcard : ((bs.map Bubble.id).toFinset \ (curr.id :: visited).toFinset).card =
            ((bs.map Bubble.id).toFinset \ visited.toFinset).card - 1 := by
          rw [List.toFinset_cons, Finset.sdiff_insert, Finset.card_erase_of_mem hsd]
        have hpos : 0 < ((bs.map Bubble.id).toFinset \ visited.toFinset).card :=
          Finset.card_pos.mpr ⟨_, hsd⟩
        by_cases hc : curr.color = start.color
        · -- new same-color bubble: match it and push its neighbors
          have hcurr_reach : SameColorReach bs start curr := by
            rcases hcurr_src with rfl | ⟨_, m, hm, hnb⟩
            · exact Relation.ReflTransGen.refl
            · obtain ⟨_, hmc, hmr, _, _⟩ := h2 m hm
              exact hmr.tail ⟨hmc, hcurr_bs, hcurr_act, hnb⟩
          simp only [floodLoop, if_neg hv, if_pos hc]
          apply ih
          · constructor
            · -- worklist provenance
              intro b hb
              rcases List.mem_append.mp hb with hb | hb
              · have := List.mem_filter.mp hb
                obtain ⟨hbbs, hprops⟩ := this
                have hsplit := hprops
                simp only [Bool.and_eq_true] at hsplit
                exact ⟨hbbs, Or.inr ⟨hsplit.1.1,
                  curr, List.mem_append.mpr (Or.inr (List.mem_singleton.mpr rfl)),
                  hsplit.2⟩⟩
              · obtain ⟨hbbs, hsrc⟩ := h1 b (List.mem_cons_of_mem _ hb)
                refine ⟨hbbs, ?_⟩
                rcases hsrc with rfl | ⟨hba, m, hm, hnb⟩
                · exact Or.inl rfl
                · exact Or.inr ⟨hba, m, List.mem_append.mpr (Or.inl hm), hnb⟩
            constructor
            · -- match soundness
              intro m hm
              rcases List.mem_append.mp hm with hm | hm
              · obtain ⟨ha, hb', hcr, hd, he⟩ := h2 m hm
                exact ⟨ha, hb', hcr, List.mem_cons_of_mem _ hd, he⟩
              · rcases List.mem_singleton.mp hm with rfl
                exact ⟨hcurr_bs, hc, hcurr_reach, List.mem_cons_self _ _, hcurr_act⟩
            constructor
            · -- visited ids belong to active bubbles
              intro i hi
              rcases List.mem_cons.mp hi with rfl | hi
              · exact ⟨curr, hcurr_bs, rfl, hcurr_act⟩
              · exact h3 i hi
            constructor
            · -- visited same-color bubbles are matched
              intro v hvbs hvc hvi
              rcases List.mem_cons.mp hvi with hvi | hvi
              · have : v = curr := bubble_id_inj hnodup v hvbs curr hcurr_bs hvi
                subst this
                exact List.mem_append.mpr (Or.inr (List.mem_singleton.mpr rfl))
              · exact List.mem_append.mpr (Or.inl (h4 v hvbs hvc hvi))
            constructor
            · -- neighbors of matches are scheduled or visited
              intro m hm v hvbs hvact hnb
              rcases List.mem_append.mp hm with hm | hm
              · rcases h5 m hm v hvbs hvact hnb with h | h
                · exact Or.inl (List.mem_cons_of_mem _ h)
                · rcases List.mem_cons.mp h with rfl | h
                  · exact Or.inl (List.mem_cons_self _ _)
                  · exact Or.inr (List.mem_append.mpr (Or.inr h))
              · rcases List.mem_singleton.mp hm with rfl
                by_cases hvi : v.id ∈ (m.id :: visited)
                · exact Or.inl hvi
                · refine Or.inr (List.mem_append.mpr (Or.inl ?_))
                  refine List.mem_filter.mpr ⟨hvbs, ?_⟩
                  simp only [Bool.and_eq_true]
                  refine ⟨⟨hvact, ?_⟩, hnb⟩
                  simp only [Bool.not_eq_true']
                  exact Bool.not_eq_true _ ▸ (by simpa using hvi)
            constructor
            · -- the origin is matched or scheduled
              rcases h6 with h | ⟨hs, hns⟩
              · exact Or.inl (List.mem_append.mpr (Or.inl h))
              · by_cases hsc : start = curr
                · subst hsc
                  exact Or.inl (List.mem_append.mpr (Or.inr (List.mem_singleton.mpr rfl)))
                · rcases List.mem_cons.mp hs with h | hs'
                  · exact absurd h hsc
                  · have hsbs : start ∈ bs := (h1 start hs).1
                    refine Or.inr ⟨List.mem_append.mpr (Or.inr hs'), ?_⟩
                    intro hmem
                    rcases List.mem_cons.mp hmem with h | h
                    · exact hsc (bubble_id_inj hnodup start hsbs curr hcurr_bs h)
                    · exact hns h
            · -- match ids stay duplicate-free
              rw [List.map_append]
              rw [List.nodup_append]
              refine ⟨h7, List.nodup_singleton _, ?_⟩
              intro i hi hi'
              simp only [List.map_cons, List.map_nil, List.mem_singleton] at hi'
              subst hi'
              obtain ⟨m, hm, hmid⟩ := List.mem_map.mp hi
              obtain ⟨_, _, _, hmv, _⟩ := h2 m hm
              exact hvnot (hmid ▸ hmv)
          · -- the potential decreased
            have hns : (bs.filter fun b =>
                b.active && !((curr.id :: visited).contains b.id) && isNeighbor curr b).length ≤
                bs.length := List.length_filter_le _ _
            simp only [floodPhi, List.length_cons, List.length_append] at hphi ⊢
            rw [hcard]
            set A := ((bs.map Bubble.id).toFinset \ visited.toFinset).card with hA
            obtain ⟨B, hB⟩ : ∃ B, A = B + 1 := ⟨A - 1, by omega⟩
            rw [hB] at hphi ⊢
            rw [Nat.succ_mul] at hphi
            simp only [Nat.add_sub_cancel]
            omega
        · -- off-color bubble: only mark it visited
          have hcne : curr ≠ start := fun h => hc (h ▸ rfl)
          simp only [floodLoop, if_neg hv, if_neg hc]
          apply ih
          · constructor
            · exact fun b hb => h1 b (List.mem_cons_of_mem _ hb)
            constructor
            · intro m hm
              obtain ⟨ha, hb', hcr, hd, he⟩ := h2 m hm
              exact ⟨ha, hb', hcr, List.mem_cons_of_mem _ hd, he⟩
            constructor
            · intro i hi
              rcases List.mem_cons.mp hi with rfl | hi
              · exact ⟨curr, hcurr_bs, rfl, hcurr_act⟩
              · exact h3 i hi
            constructor
            · intro v hvbs hvc hvi
              rcases List.mem_cons.mp hvi with hvi | hvi
              · have : v = curr := bubble_id_inj hnodup v hvbs curr hcurr_bs hvi
                exact absurd (this ▸ hvc) hc
              · exact h4 v hvbs hvc hvi
            constructor
            · intro m hm v hvbs hvact hnb
              rcases h5 m hm v hvbs hvact hnb with h | h
              · exact Or.inl (List.mem_cons_of_mem _ h)
              · rcases List.mem_cons.mp h with rfl | h
                · exact Or.inl (List.mem_cons_self _ _)
                · exact Or.inr h
            constructor
            · rcases h6 with h | ⟨hs, hns⟩
              · exact Or.inl h
              · rcases List.mem_cons.mp hs with h | hs'
                · exact absurd h.symm hcne
                · have hsbs : start ∈ bs := (h1 start hs).1
                  refine Or.inr ⟨hs', ?_⟩
                  intro hmem
                  rcases List.mem_cons.mp hmem with h | h
                  · exact hcne (bubble_id_inj hnodup curr hcurr_bs start hsbs h.symm)
                  · exact hns h
            · exact h7
          · simp only [floodPhi, List.length_cons] at hphi ⊢
            rw [hcard]
            set A := ((bs.map Bubble.id).toFinset \ visited.toFinset).card with hA
            obtain ⟨B, hB⟩ : ∃ B, A = B + 1 := ⟨A - 1, by omega⟩
            rw [hB] at hphi ⊢
            rw [Nat.succ_mul] at hphi
            simp only [Nat.add_sub_cancel]
            omega

/-- Initial state of the worklist satisfies the invariant. -/
theorem floodInv_init (bs : List Bubble) (start : Bubble) (hs : start ∈ bs) :
    floodInv bs start [start] [] [] := by
  refine ⟨?_, ?_, ?_, ?_, ?_, ?_, ?_⟩
  · intro b hb
    rcases List.mem_singleton.mp hb with rfl
    exact ⟨hs, Or.inl rfl⟩
  · intro m hm; cases hm
  · intro i hi; cases hi
  · intro v _ _ hvi; cases hvi
  · intro m hm; cases hm
  · exact Or.inr ⟨List.mem_singleton.mpr rfl, List.not_mem_nil _⟩
  · exact List.nodup_nil

/-- The fuel `checkMatches` supplies dominates the initial potential. -/
theorem floodPhi_init (bs : List Bubble) (start : Bubble) :
    floodPhi bs [start] [] ≤ floodFuel bs := by
  simp only [floodPhi, floodFuel, List.toFinset_nil, Finset.sdiff_empty,
    List.length_singleton]
  have h1 : (bs.map Bubble.id).toFinset.card ≤ bs.length := by
    calc (bs.map Bubble.id).toFinset.card ≤ (bs.map Bubble.id).length :=
          (bs.map Bubble.id).toFinset_card_le
      _ = bs.length := List.length_map _ _
  exact Nat.add_le_add_right (Nat.mul_le_mul_right _ h1) 1

/-- End-state invariant of the flood fill started on `start`. -/
theorem floodInv_result (bs : List Bubble) (start : Bubble) (hs : start ∈ bs)
    (hact : start.active = true) (hnodup : (bs.map Bubble.id).Nodup) :
    floodInv bs start [] (visitedList bs start) (matchList bs start) :=
  floodLoop_final bs start hact hnodup (floodFuel bs) [start] [] []
    (floodInv_init bs start hs) (floodPhi_init bs start)

/-- Characterization of the flood fill: a bubble is matched exactly when it
lies in the color-contiguous component of the origin. -/
theorem matchList_iff (bs : List Bubble) (start : Bubble) (hs : start ∈ bs)
    (hact : start.active = true) (hnodup : (bs.map Bubble.id).Nodup) :
    ∀ b, b ∈ matchList bs start ↔ InComponent bs start b := by
  obtain ⟨f1, f2, f3, f4, f5, f6, f7⟩ := floodInv_result bs start hs hact hnodup
  intro b
  constructor
  · intro hb
    obtain ⟨_, hcol, hreach, _, _⟩ := f2 b hb
    exact ⟨hreach, hcol⟩
  · rintro ⟨hr, hcol⟩
    have complete : ∀ t, Relation.ReflTransGen (FloodStep bs start.color) start t →
        t.color = start.color → t ∈ matchList bs start := by
      intro t ht
      induction ht with
      | refl =>
        intro _
        rcases f6 with h | ⟨h, _⟩
        · exact h
        · exact absurd h (List.not_mem_nil _)
      | @tail p q hsp hpq ih =>
        intro hqcol
        obtain ⟨hpcol, hqbs, hqact, hnb⟩ := hpq
        have hpmem : p ∈ matchList bs start := ih hpcol
        rcases f5 p hpmem q hqbs hqact hnb with h | h
        · exact f4 q hqbs hqcol h
        · exact absurd h (List.not_mem_nil _)
    exact complete b hr hcol

/-- Soundness facts about matched bubbles: they belong to the grid, carry
the origin color and are active. -/
theorem matchList_sound (bs : List Bubble) (start : Bubble) (hs : start ∈ bs)
    (hact : start.active = true) (hnodup : (bs.map Bubble.id).Nodup) :
    ∀ b ∈ matchList bs start,
      b ∈ bs ∧ b.color = start.color ∧ b.active = true := by
  obtain ⟨f1, f2, f3, f4, f5, f6, f7⟩ := floodInv_result bs start hs hact hnodup
  intro b hb
  obtain ⟨ha, hb', _, _, he⟩ := f2 b hb
  exact ⟨ha, hb', he⟩

/-- Match ids are duplicate-free: the match count is the component size. -/
theorem matchList_nodup (bs : List Bubble) (start : Bubble) (hs : start ∈ bs)
    (hact : start.active = true) (hnodup : (bs.map Bubble.id).Nodup) :
    ((matchList bs start).map Bubble.id).Nodup :=
  (floodInv_result bs start hs hact hnodup).2.2.2.2.2.2

/-- Every id the flood fill ever visits belongs to an active grid bubble:
inactive tokens are never visited. -/
theorem visitedList_active (bs : List Bubble) (start : Bubble) (hs : start ∈ bs)
    (hact : start.active = true) (hnodup : (bs.map Bubble.id).Nodup) :
    ∀ i ∈ visitedList bs start, ∃ b ∈ bs, b.id = i ∧ b.active = true :=
  (floodInv_result bs start hs hact hnodup).2.2.1

/-- Conversion between `Rat.floor` (the executable floor used in the
embedding of `Math.floor`) and the `⌊·⌋` of the floor ring on `ℚ`. -/
theorem ratFloor_eq_floor (q : ℚ) : Rat.floor q = ⌊q⌋ := rfl

/-- Having at least three matches is the same as the component containing
three tokens with pairwise distinct identities. -/
theorem three_matches_iff (bs : List Bubble) (start : Bubble) (hs : start ∈ bs)
    (hact : start.active = true) (hnodup : (bs.map Bubble.id).Nodup) :
    3 ≤ (matchList bs start).length ↔
      ∃ x y z : Bubble, InComponent bs start x ∧ InComponent bs start y ∧
        InComponent bs start z ∧ x.id ≠ y.id ∧ x.id ≠ z.id ∧ y.id ≠ z.id := by
  have hiff := matchList_iff bs start hs hact hnodup
  have hnd := matchList_nodup bs start hs hact hnodup
  constructor
  · intro h
    rcases hml : matchList bs start with _ | ⟨a, rest1⟩
    · rw [hml] at h; simp at h
    rcases rest1 with _ | ⟨b, rest2⟩
    · rw [hml] at h; simp at h
    rcases rest2 with _ | ⟨c, rest3⟩
    · rw [hml] at h; simp at h
    rw [hml] at hnd
    simp only [List.map_cons, List.nodup_cons, List.mem_cons, List.mem_map,
      not_or] at hnd
    refine ⟨a, b, c, ?_, ?_, ?_, ?_, ?_, ?_⟩
    · exact (hiff a).mp (by rw [hml]; exact List.mem_cons_self _ _)
    · exact (hiff b).mp (by rw [hml]; simp)
    · exact (hiff c).mp (by rw [hml]; simp)
    · exact fun h' => hnd.1.1 h'
    · exact fun h' => hnd.1.2.1 h'
    · exact fun h' => hnd.2.1.1 h'
  · rintro ⟨x, y, z, hx, hy, hz, hxy, hxz, hyz⟩
    have hxm := (hiff x).mpr hx
    have hym := (hiff y).mpr hy
    have hzm := (hiff z).mpr hz
    have hsub : ({x.id, y.id, z.id} : Finset ℕ) ⊆
        ((matchList bs start).map Bubble.id).toFinset := by
      intro i hi
      simp only [Finset.mem_insert, Finset.mem_singleton] at hi
      rcases hi with rfl | rfl | rfl
      · exact List.mem_toFinset.mpr (List.mem_map.mpr ⟨x, hxm, rfl⟩)
      · exact List.mem_toFinset.mpr (List.mem_map.mpr ⟨y, hym, rfl⟩)
      · exact List.mem_toFinset.mpr (List.mem_map.mpr ⟨z, hzm, rfl⟩)
    have hcard : ({x.id, y.id, z.id} : Finset ℕ).card = 3 := by
      rw [Finset.card_insert_of_not_mem (by simp [hxy, hxz]),
        Finset.card_insert_of_not_mem (by simp [hyz]), Finset.card_singleton]
    calc 3 = ({x.id, y.id, z.id} : Finset ℕ).card := hcard.symm
      _ ≤ ((matchList bs start).map Bubble.id).toFinset.card :=
          Finset.card_le_card hsub
      _ ≤ ((matchList bs start).map Bubble.id).length := List.toFinset_card_le _
      _ = (matchList bs start).length := List.length_map _ _

/-- C1.  Resolving a match on an origin removes exactly the active tokens
connected to the origin transitively through same-color neighbor edges when
that component has at least 3 members (with pairwise distinct identities);
with fewer members no token changes and the grid is left untouched.
Inactive tokens are never visited by the flood fill (third conjunct), and a
token outside the component — in particular any off-color neighbor — is
never deactivated (pointwise characterization, second part). -/
theorem checkMatches_resolves_component (bs : List Bubble) (start : Bubble)
    (multiplier accuracyBonus : ℚ) (hs : start ∈ bs) (hact : start.active = true)
    (hnodup : (bs.map Bubble.id).Nodup) :
    ((∃ x y z : Bubble, InComponent bs start x ∧ InComponent bs start y ∧
        InComponent bs start z ∧ x.id ≠ y.id ∧ x.id ≠ z.id ∧ y.id ≠ z.id) →
      ((checkMatches bs start multiplier accuracyBonus).1.length = bs.length ∧
       ∀ (i : ℕ) (b : Bubble), bs[i]? = some b →
         (InComponent bs start b →
           (checkMatches bs start multiplier accuracyBonus).1[i]? =
             some { b with active := false }) ∧
         (¬ InComponent bs start b →
           (checkMatches bs start multiplier accuracyBonus).1[i]? = some b))) ∧
    (¬ (∃ x y z : Bubble, InComponent bs start x ∧ InComponent bs start y ∧
        InComponent bs start z ∧ x.id ≠ y.id ∧ x.id ≠ z.id ∧ y.id ≠ z.id) →
      (checkMatches bs start multiplier accuracyBonus).1 = bs) ∧
    (∀ i ∈ visitedList bs start, ∃ b ∈ bs, b.id = i ∧ b.active = true) := by
  have h3iff := three_matches_iff bs start hs hact hnodup
  have hiff := matchList_iff bs start hs hact hnodup
  have hsound := matchList_sound bs start hs hact hnodup
  refine ⟨?_, ?_, visitedList_active bs start hs hact hnodup⟩
  · intro hex
    have hlen : 3 ≤ (matchList bs start).length := h3iff.mpr hex
    have hres : (checkMatches bs start multiplier accuracyBonus).1 =
        bs.map (fun b =>
          if ((matchList bs start).map Bubble.id).contains b.id
          then { b with active := false } else b) := by
      simp only [checkMatches]
      rw [if_pos hlen]
    refine ⟨by rw [hres]; exact List.length_map _ _, ?_⟩
    intro i b hgetb
    have hbmem : b ∈ bs := List.getElem?_mem hgetb
    have hget : (checkMatches bs start multiplier accuracyBonus).1[i]? =
        some (if ((matchList bs start).map Bubble.id).contains b.id
          then { b with active := false } else b) := by
      rw [hres, List.getElem?_map, hgetb, Option.map_some']
    constructor
    · intro hin
      have hbl : b ∈ matchList bs start := (hiff b).mpr hin
      have hcontains : ((matchList bs start).map Bubble.id).contains b.id = true :=
        List.elem_iff.mpr (List.mem_map.mpr ⟨b, hbl, rfl⟩)
      rw [hget, if_pos hcontains]
    · intro hnin
      have hcontains : ¬ ((matchList bs start).map Bubble.id).contains b.id = true := by
        intro hcon
        obtain ⟨m, hm, hmid⟩ := List.mem_map.mp (List.elem_iff.mp hcon)
        obtain ⟨hmbs, _, _⟩ := hsound m hm
        have : m = b := bubble_id_inj hnodup m hmbs b hbmem hmid
        exact hnin ((hiff b).mp (this ▸ hm))
      rw [hget, if_neg hcontains]
  · intro hnex
    have hlen : ¬ 3 ≤ (matchList bs start).length := fun h => hnex (h3iff.mp h)
    simp only [checkMatches]
    rw [if_neg hlen]

/-- Scenario grid of the specification: two isolated same-color clusters of
sizes 5 (row 0, columns 0–4) and 3 (row 3, columns 0–2), color red
(value 100).  Rows 0 and 3 are more than one row apart, so the clusters are
not adjacent. -/
def scenGrid : List Bubble :=
  [⟨0, 0, 0, 0, 0, .red, true⟩, ⟨1, 0, 1, 0, 0, .red, true⟩,
   ⟨2, 0, 2, 0, 0, .red, true⟩, ⟨3, 0, 3, 0, 0, .red, true⟩,
   ⟨4, 0, 4, 0, 0, .red, true⟩,
   ⟨5, 3, 0, 0, 0, .red, true⟩, ⟨6, 3, 1, 0, 0, .red, true⟩,
   ⟨7, 3, 2, 0, 0, .red, true⟩]

/-- Origin inside the 5-cluster of `scenGrid`. -/
def scenOrigin5 : Bubble := ⟨0, 0, 0, 0, 0, .red, true⟩

/-- Origin inside the 3-cluster of `scenGrid`. -/
def scenOrigin3 : Bubble := ⟨5, 3, 0, 0, 0, .red, true⟩

/-- C1 witness: the theorem applied to the concrete scenario grid, with
its three-distinct-members hypothesis discharged by an explicit
same-color chain through the 5-cluster. -/
theorem checkMatches_resolves_component_witness :
    (checkMatches scenGrid scenOrigin5 1 1).1.length = scenGrid.length := by
  have hstep1 : FloodStep scenGrid scenOrigin5.color scenOrigin5
      ⟨1, 0, 1, 0, 0, .red, true⟩ :=
    ⟨rfl, by decide, rfl, by decide⟩
  have hstep2 : FloodStep scenGrid scenOrigin5.color ⟨1, 0, 1, 0, 0, .red, true⟩
      ⟨2, 0, 2, 0, 0, .red, true⟩ :=
    ⟨rfl, by decide, rfl, by decide⟩
  have hx : InComponent scenGrid scenOrigin5 scenOrigin5 :=
    ⟨Relation.ReflTransGen.refl, rfl⟩
  have hy : InComponent scenGrid scenOrigin5 ⟨1, 0, 1, 0, 0, .red, true⟩ :=
    ⟨Relation.ReflTransGen.refl.tail hstep1, rfl⟩
  have hz : InComponent scenGrid scenOrigin5 ⟨2, 0, 2, 0, 0, .red, true⟩ :=
    ⟨(Relation.ReflTransGen.refl.tail hstep1).tail hstep2, rfl⟩
  exact ((checkMatches_resolves_component scenGrid scenOrigin5 1 1
    (by decide) rfl (by decide)).1
    ⟨scenOrigin5, ⟨1, 0, 1, 0, 0, .red, true⟩, ⟨2, 0, 2, 0, 0, .red, true⟩,
      hx, hy, hz, by decide, by decide, by decide⟩).1

/-- C2.  Scoring of a triggered match: the score delta is exactly
`floor(matchSize * colorValue * multiplier * (matchSize > 3 ? 1.5 : 1) * accuracyBonus)`
when at least three tokens match, `0` otherwise, and it is never negative
(the score, accumulated additively, never decreases).  On the concrete
scenario grid the 5-cluster yields 750 points and the 3-cluster 300. -/
theorem checkMatches_score_formula (bs : List Bubble) (start : Bubble)
    (multiplier accuracyBonus : ℚ)
    (hm : 0 ≤ multiplier) (hb : 0 ≤ accuracyBonus) :
    (3 ≤ (matchList bs start).length →
      (checkMatches bs start multiplier accuracyBonus).2 =
        Rat.floor (((matchList bs start).length : ℚ) *
          (colorPoints start.color : ℚ) * multiplier *
          (if 3 < (matchList bs start).length then 3 / 2 else 1) * accuracyBonus)) ∧
    ((matchList bs start).length < 3 →
      (checkMatches bs start multiplier accuracyBonus).2 = 0) ∧
    0 ≤ (checkMatches bs start multiplier accuracyBonus).2 ∧
    (checkMatches scenGrid scenOrigin5 1 1).2 = 750 ∧
    (checkMatches scenGrid scenOrigin3 1 1).2 = 300 := by
  have hfac : (0:ℚ) ≤ (if 3 < (matchList bs start).length then 3 / 2 else 1) := by
    split <;> norm_num
  refine ⟨?_, ?_, ?_, ?_, ?_⟩
  · intro hlen
    simp only [checkMatches]
    rw [if_pos hlen]
  · intro hlen
    simp only [checkMatches]
    rw [if_neg (by omega)]
  · by_cases hlen : 3 ≤ (matchList bs start).length
    · simp only [checkMatches]
      rw [if_pos hlen]
      rw [ratFloor_eq_floor]
      refine Int.floor_nonneg.mpr ?_
      have h1 : (0:ℚ) ≤ ((matchList bs start).length : ℚ) := by positivity
      have h2 : (0:ℚ) ≤ (colorPoints start.color : ℚ) := by positivity
      exact mul_nonneg (mul_nonneg (mul_nonneg (mul_nonneg h1 h2) hm) hfac) hb
    · simp only [checkMatches]
      rw [if_neg hlen]
  · have h5 : (matchList scenGrid scenOrigin5).length = 5 := by decide
    simp only [checkMatches]
    rw [h5]
    norm_num [scenOrigin5, colorPoints, ratFloor_eq_floor]
  · have h3 : (matchList scenGrid scenOrigin3).length = 3 := by decide
    simp only [checkMatches]
    rw [h3]
    norm_num [scenOrigin3, colorPoints, ratFloor_eq_floor]

/-- C2 witness: the scoring theorem instantiated on the scenario grid. -/
theorem checkMatches_score_formula_witness :
    (checkMatches scenGrid scenOrigin5 1 1).2 = 750 ∧
    (checkMatches scenGrid scenOrigin3 1 1).2 = 300 :=
  ⟨(checkMatches_score_formula scenGrid scenOrigin5 1 1
      (by norm_num) (by norm_num)).2.2.2.1,
   (checkMatches_score_formula scenGrid scenOrigin5 1 1
      (by norm_num) (by norm_num)).2.2.2.2⟩

/-- Accuracy classification of the landing resolution in `onResults`.  The
input is the squared distance between the landing pixel and the advisory
target pixel active at launch (`none` when no target was active).  The
source compares the plain distance with `BUBBLE_RADIUS` and
`BUBBLE_RADIUS * 2.5`; comparing squares is equivalent for nonnegative
distances. -/
def computeAccuracy (dSq? : Option ℚ) : ℚ × Option String :=
  match dSq? with
  | none => (1, none)
  | some dSq =>
    if dSq < BUBBLE_RADIUS ^ 2 then (2, some "CRITICAL HIT!")
    else if dSq < (BUBBLE_RADIUS * (5 / 2)) ^ 2 then (3 / 2, some "GREAT AIM!")
    else (1, some "OFF TARGET")

/-- Accuracy of a resolved shot from the landing pixel and the target that
was active at launch (`activeShotTargetRef`). -/
def shotAccuracy (target : Option (ℚ × ℚ)) (landing : ℚ × ℚ) : ℚ × Option String :=
  computeAccuracy (target.map fun t => distSq landing t)

/-- C3.  Accuracy tiers as a function of the landing distance `d`:
`d < radius` is a critical hit with bonus 2.0, `radius ≤ d < 2.5·radius` is
a great aim with bonus 1.5, `2.5·radius ≤ d` is off-target with bonus 1.0 —
so a distance exactly at a threshold falls in the higher-distance tier —
and with no target active at launch the bonus is 1.0 with no label. -/
theorem accuracy_tiers (d : ℚ) (hd : 0 ≤ d) :
    (d < BUBBLE_RADIUS →
      computeAccuracy (some (d ^ 2)) = (2, some "CRITICAL HIT!")) ∧
    (BUBBLE_RADIUS ≤ d → d < BUBBLE_RADIUS * (5 / 2) →
      computeAccuracy (some (d ^ 2)) = (3 / 2, some "GREAT AIM!")) ∧
    (BUBBLE_RADIUS * (5 / 2) ≤ d →
      computeAccuracy (some (d ^ 2)) = (1, some "OFF TARGET")) ∧
    (∀ landing : ℚ × ℚ, shotAccuracy none landing = (1, none)) := by
  simp only [BUBBLE_RADIUS] at *
  refine ⟨?_, ?_, ?_, ?_⟩
  · intro h
    simp only [computeAccuracy, BUBBLE_RADIUS]
    rw [if_pos (by nlinarith)]
  · intro h1 h2
    simp only [computeAccuracy, BUBBLE_RADIUS]
    rw [if_neg (by nlinarith), if_pos (by nlinarith)]
  · intro h
    simp only [computeAccuracy, BUBBLE_RADIUS]
    rw [if_neg (by nlinarith), if_neg (by nlinarith)]
  · intro landing
    rfl

/-- C3 witness: a distance of exactly one radius falls in the "great" tier,
and a shot without an active target gets bonus 1 and no label. -/
theorem accuracy_tiers_witness :
    computeAccuracy (some ((22 : ℚ) ^ 2)) = (3 / 2, some "GREAT AIM!") ∧
    shotAccuracy none (0, 0) = (1, none) :=
  ⟨(accuracy_tiers 22 (by norm_num)).2.1 (by norm_num [BUBBLE_RADIUS])
      (by norm_num [BUBBLE_RADIUS]),
   (accuracy_tiers 22 (by norm_num)).2.2.2 (0, 0)⟩

/-- Squared distances are nonnegative. -/
theorem distSq_nonneg (p q : ℚ × ℚ) : 0 ≤ distSq p q := by
  simp only [distSq]
  positivity

/-- Squared distance of a point to itself vanishes. -/
theorem distSq_self (p : ℚ × ℚ) : distSq p p = 0 := by
  simp [distSq]

/-- Horizontal pixel offset between two cells of the same row. -/
theorem getBubblePos_sub_x (rowHeight W : ℚ) (r c1 c2 : ℕ) :
    (getBubblePos rowHeight W r c1).1 - (getBubblePos rowHeight W r c2).1 =
      ((c1 : ℚ) - (c2 : ℚ)) * (BUBBLE_RADIUS * 2) := by
  simp only [getBubblePos]
  ring

/-- Vertical pixel offset between two cells. -/
theorem getBubblePos_sub_y (rowHeight W : ℚ) (r1 c1 r2 c2 : ℕ) :
    (getBubblePos rowHeight W r1 c1).2 - (getBubblePos rowHeight W r2 c2).2 =
      ((r1 : ℚ) - (r2 : ℚ)) * rowHeight := by
  simp only [getBubblePos]
  ring

/-- Distinct cells have strictly positive squared pixel distance (the
cell-to-pixel map is injective for any positive row height). -/
theorem getBubblePos_distSq_pos (rowHeight W : ℚ) (hrh : 0 < rowHeight)
    (r1 c1 r2 c2 : ℕ) (hne : (r1, c1) ≠ (r2, c2)) :
    0 < distSq (getBubblePos rowHeight W r1 c1) (getBubblePos rowHeight W r2 c2) := by
  rcases eq_or_ne r1 r2 with rfl | hr
  · have hc : c1 ≠ c2 := fun h => hne (by rw [h])
    have hx := getBubblePos_sub_x rowHeight W r1 c1 c2
    have hdx : ((c1 : ℚ) - (c2 : ℚ)) * (BUBBLE_RADIUS * 2) ≠ 0 := by
      refine mul_ne_zero ?_ (by norm_num [BUBBLE_RADIUS])
      exact sub_ne_zero.mpr (by exact_mod_cast hc)
    simp only [distSq, hx]
    nlinarith [mul_self_pos.mpr hdx,
      sq_nonneg ((getBubblePos rowHeight W r1 c1).2 - (getBubblePos rowHeight W r1 c2).2),
      sq_abs (((c1 : ℚ) - (c2 : ℚ)) * (BUBBLE_RADIUS * 2))]
  · have hy := getBubblePos_sub_y rowHeight W r1 c1 r2 c2
    have hdy : ((r1 : ℚ) - (r2 : ℚ)) * rowHeight ≠ 0 := by
      refine mul_ne_zero ?_ (ne_of_gt hrh)
      exact sub_ne_zero.mpr (by exact_mod_cast hr)
    simp only [distSq, hy]
    nlinarith [mul_self_pos.mpr hdy,
      sq_nonneg ((getBubblePos rowHeight W r1 c1).1 - (getBubblePos rowHeight W r2 c2).1)]

/-- Any scan fold result is either the initial state or a record of one of
the scanned cells together with its distance. -/
theorem scan_fold_cases (rowHeight W : ℚ) (bs : List Bubble) (p : ℚ × ℚ) :
    ∀ (l : List (ℕ × ℕ)) (st0 : BestCell),
      l.foldl (scanStep rowHeight W bs p) st0 = st0 ∨
      ∃ rc ∈ l, l.foldl (scanStep rowHeight W bs p) st0 =
        ⟨some (distSq p (getBubblePos rowHeight W rc.1 rc.2)), rc.1, rc.2⟩ := by
  intro l
  induction l with
  | nil => intro st0; exact Or.inl rfl
  | cons e t ih =>
    intro st0
    have hstep : scanStep rowHeight W bs p st0 e = st0 ∨
        scanStep rowHeight W bs p st0 e =
          ⟨some (distSq p (getBubblePos rowHeight W e.1 e.2)), e.1, e.2⟩ := by
      simp only [scanStep]
      split
      · exact Or.inl rfl
      · rcases hd : st0.dist? with _ | bd
        · simp [hd]
        · simp only [hd]
          split
          · exact Or.inr rfl
          · exact Or.inl rfl
    rw [List.foldl_cons]
    rcases ih (scanStep rowHeight W bs p st0 e) with h | ⟨rc, hrc, h⟩
    · rw [h]
      rcases hstep with h' | h'
      · exact Or.inl h'
      · exact Or.inr ⟨e, List.mem_cons_self _ _, h'⟩
    · exact Or.inr ⟨rc, List.mem_cons_of_mem _ hrc, h⟩

/-- Once the scan holds a best distance that no remaining cell strictly
beats, the state never changes. -/
theorem scan_fold_keep (rowHeight W : ℚ) (bs : List Bubble) (p : ℚ × ℚ) :
    ∀ (l : List (ℕ × ℕ)) (st : BestCell) (bd : ℚ), st.dist? = some bd →
      (∀ rc ∈ l, ¬ distSq p (getBubblePos rowHeight W rc.1 rc.2) < bd) →
      l.foldl (scanStep rowHeight W bs p) st = st := by
  intro l
  induction l with
  | nil => intro st bd _ _; rfl
  | cons e t ih =>
    intro st bd hbd hl
    have hstep : scanStep rowHeight W bs p st e = st := by
      simp only [scanStep]
      split
      · rfl
      · rw [hbd]
        simp only
        rw [if_neg (hl e (List.mem_cons_self _ _))]
    rw [List.foldl_cons, hstep]
    exact ih st bd hbd fun rc hrc => hl rc (List.mem_cons_of_mem _ hrc)

/-- Valid cells appear in the row-major enumeration. -/
theorem mem_cellList (r c : ℕ) (hr : r < GRID_ROWS) (hc : c < rowCols r) :
    (r, c) ∈ cellList := by
  simp only [cellList, List.mem_flatMap, List.mem_range, List.mem_map]
  exact ⟨r, hr, c, hc, rfl⟩

/-- C5.  Pixel mapping round trip: for every valid cell within the row
ceiling and every viewport width, the nearest free cell of the cell's own
pixel on an empty grid is exactly that cell.  The second conjunct is the
tie/determinism rule: the scan's incumbent best cell is never displaced by
a later cell that is not strictly closer, so ties in distance are resolved
in favor of the earlier cell in row-major enumeration order. -/
theorem nearestFreeCell_roundtrip (rowHeight W : ℚ) (hrh : 0 < rowHeight)
    (r c : ℕ) (hr : r < GRID_ROWS) (hc : c < rowCols r) :
    nearestFreeCell rowHeight W [] (getBubblePos rowHeight W r c) = (r, c) ∧
    (∀ (bs : List Bubble) (p : ℚ × ℚ) (st : BestCell) (bd : ℚ) (rc : ℕ × ℕ),
      st.dist? = some bd →
      ¬ distSq p (getBubblePos rowHeight W rc.1 rc.2) < bd →
      scanStep rowHeight W bs p st rc = st) := by
  constructor
  · set p := getBubblePos rowHeight W r c with hp
    have hd0 : distSq p (getBubblePos rowHeight W r c) = 0 := by
      rw [hp]; exact distSq_self _
    obtain ⟨L1, L2, hsplit⟩ := List.append_of_mem (mem_cellList r c hr hc)
    simp only [nearestFreeCell]
    rw [hsplit, List.foldl_append, List.foldl_cons]
    have hmid : scanStep rowHeight W [] p
        (L1.foldl (scanStep rowHeight W [] p) ⟨none, 0, 0⟩) (r, c) =
        ⟨some 0, r, c⟩ := by
      rcases scan_fold_cases rowHeight W [] p L1 ⟨none, 0, 0⟩ with h | ⟨rc', _, h⟩
      · rw [h]
        simp only [scanStep, cellOccupied, List.any_nil]
        simp [hd0]
      · rw [h]
        by_cases hrc_eq : rc' = (r, c)
        · subst hrc_eq
          simp only [scanStep, cellOccupied, List.any_nil]
          simp [hd0]
        · have hbdpos : 0 < distSq p (getBubblePos rowHeight W rc'.1 rc'.2) := by
            rw [hp]
            refine getBubblePos_distSq_pos rowHeight W hrh r c rc'.1 rc'.2 ?_
            intro he
            apply hrc_eq
            rcases rc' with ⟨r1, c1⟩
            simpa using he.symm
          simp only [scanStep, cellOccupied, List.any_nil]
          simp only [Bool.false_eq_true, if_false]
          rw [hd0]
          simp [hbdpos, hd0]
    rw [hmid]
    rw [scan_fold_keep rowHeight W [] p L2 ⟨some 0, r, c⟩ 0 rfl
      (fun rc _ => not_lt.mpr (distSq_nonneg _ _))]
  · intro bs p st bd rc hbd hnlt
    simp only [scanStep]
    split
    · rfl
    · simp only [hbd]
      rw [if_neg hnlt]

/-- C5 witness: the round trip at a concrete row height, viewport width and
cell. -/
theorem nearestFreeCell_roundtrip_witness :
    nearestFreeCell 38 528 [] (getBubblePos 38 528 2 3) = (2, 3) :=
  (nearestFreeCell_roundtrip 38 528 (by norm_num) 2 3 (by decide) (by decide)).1

/-- Projectile landing insertion of `onResults`: the grid gains a fresh
active token of the shot color at the best cell found by the scan; when the
scan never found a free cell the source's `bestRow = bestCol = 0` and
`bestX = bestY = 0` defaults are used verbatim. -/
def insertLanding (rowHeight W : ℚ) (p : ℚ × ℚ) (color : BubbleColor)
    (newId : ℕ) (bs : List Bubble) : List Bubble :=
  let st := cellList.foldl (scanStep rowHeight W bs p) ⟨none, 0, 0⟩
  let pos : ℚ × ℚ := match st.dist? with
    | none => (0, 0)
    | some _ => getBubblePos rowHeight W st.row st.col
  bs ++ [⟨newId, st.row, st.col, pos.1, pos.2, color, true⟩]

/-- Row growth (`addNewRow` in the source): every token moves down one row
with its pixel position recomputed, then row 0 is refilled with
`GRID_COLS` fresh active tokens (row 0 is even).  The random colors and the
generated ids of the new row are supplied as parameters. -/
def addNewRow (rowHeight W : ℚ) (newColors : ℕ → BubbleColor) (newIds : ℕ → ℕ)
    (bs : List Bubble) : List Bubble :=
  (bs.map fun b =>
    { b with
      row := b.row + 1
      x := (getBubblePos rowHeight W (b.row + 1) b.col).1
      y := (getBubblePos rowHeight W (b.row + 1) b.col).2 }) ++
  ((List.range GRID_COLS).map fun c =>
    ⟨newIds c, 0, c, (getBubblePos rowHeight W 0 c).1,
      (getBubblePos rowHeight W 0 c).2, newColors c, true⟩)

/-- Grid occupancy invariant: no two active tokens share a cell. -/
def occupancyOk (bs : List Bubble) : Prop :=
  bs.Pairwise fun a b =>
    ¬ (a.active = true ∧ b.active = true ∧ a.row = b.row ∧ a.col = b.col)

/-- A scan step either keeps the state or records the scanned cell, which
is then free. -/
theorem scanStep_cases (rowHeight W : ℚ) (bs : List Bubble) (p : ℚ × ℚ)
    (st : BestCell) (rc : ℕ × ℕ) :
    scanStep rowHeight W bs p st rc = st ∨
    (cellOccupied bs rc.1 rc.2 = false ∧
      scanStep rowHeight W bs p st rc =
        ⟨some (distSq p (getBubblePos rowHeight W rc.1 rc.2)), rc.1, rc.2⟩) := by
  by_cases hocc : cellOccupied bs rc.1 rc.2 = true
  · left
    simp only [scanStep, if_pos hocc]
  · rcases hd : st.dist? with _ | bd
    · right
      refine ⟨by simpa using hocc, ?_⟩
      simp only [scanStep, if_neg hocc, hd]
    · by_cases hlt : distSq p (getBubblePos rowHeight W rc.1 rc.2) < bd
      · right
        refine ⟨by simpa using hocc, ?_⟩
        simp only [scanStep, if_neg hocc, hd, if_pos hlt]
      · left
        simp only [scanStep, if_neg hocc, hd, if_neg hlt]

/-- A scan step never loses an already-found best distance. -/
theorem scanStep_some (rowHeight W : ℚ) (bs : List Bubble) (p : ℚ × ℚ)
    (st : BestCell) (rc : ℕ × ℕ) (h : st.dist? ≠ none) :
    (scanStep rowHeight W bs p st rc).dist? ≠ none := by
  rcases scanStep_cases rowHeight W bs p st rc with heq | ⟨_, heq⟩ <;> rw [heq]
  · exact h
  · simp

/-- A scan step over a free cell leaves the scan with some best distance. -/
theorem scanStep_progress (rowHeight W : ℚ) (bs : List Bubble) (p : ℚ × ℚ)
    (st : BestCell) (rc : ℕ × ℕ) (h : cellOccupied bs rc.1 rc.2 = false) :
    (scanStep rowHeight W bs p st rc).dist? ≠ none := by
  simp only [scanStep]
  rw [if_neg (by simp [h])]
  rcases hd : st.dist? with _ | bd
  · simp
  · simp only
    split <;> simp [hd]

/-- The scan's recorded best cell is always free. -/
theorem scan_fold_inv (rowHeight W : ℚ) (bs : List Bubble) (p : ℚ × ℚ) :
    ∀ (l : List (ℕ × ℕ)) (st0 : BestCell),
      (st0.dist? ≠ none → cellOccupied bs st0.row st0.col = false) →
      ((l.foldl (scanStep rowHeight W bs p) st0).dist? ≠ none →
        cellOccupied bs (l.foldl (scanStep rowHeight W bs p) st0).row
          (l.foldl (scanStep rowHeight W bs p) st0).col = false) := by
  intro l
  induction l with
  | nil => intro st0 h; exact h
  | cons e t ih =>
    intro st0 h
    rw [List.foldl_cons]
    refine ih _ ?_
    rcases scanStep_cases rowHeight W bs p st0 e with heq | ⟨hfree, heq⟩ <;> rw [heq]
    · exact h
    · intro _
      exact hfree

/-- Someness of the best distance is preserved by the whole fold. -/
theorem scan_fold_some (rowHeight W : ℚ) (bs : List Bubble) (p : ℚ × ℚ) :
    ∀ (l : List (ℕ × ℕ)) (st : BestCell), st.dist? ≠ none →
      (l.foldl (scanStep rowHeight W bs p) st).dist? ≠ none := by
  intro l
  induction l with
  | nil => intro st h; exact h
  | cons e t ih =>
    intro st h
    rw [List.foldl_cons]
    exact ih _ (scanStep_some rowHeight W bs p st e h)

/-- If any scanned cell is free, the fold ends with some best distance. -/
theorem scan_fold_progress (rowHeight W : ℚ) (bs : List Bubble) (p : ℚ × ℚ) :
    ∀ (l : List (ℕ × ℕ)) (st0 : BestCell),
      (∃ rc ∈ l, cellOccupied bs rc.1 rc.2 = false) →
      (l.foldl (scanStep rowHeight W bs p) st0).dist? ≠ none := by
  intro l
  induction l with
  | nil =>
    intro st0 h
    obtain ⟨rc, hrc, _⟩ := h
    exact absurd hrc (List.not_mem_nil _)
  | cons e t ih =>
    intro st0 h
    rw [List.foldl_cons]
    obtain ⟨rc, hrc, hfree⟩ := h
    rcases List.mem_cons.mp hrc with rfl | hrc
    · exact scan_fold_some rowHeight W bs p t _
        (scanStep_progress rowHeight W bs p st0 rc hfree)
    · exact ih _ ⟨rc, hrc, hfree⟩

/-- Appending a fresh active token on a free cell keeps the occupancy
invariant. -/
theorem occupancyOk_append_free (bs : List Bubble) (i r c : ℕ) (x y : ℚ)
    (col : BubbleColor) (hocc : occupancyOk bs)
    (hfree : cellOccupied bs r c = false) :
    occupancyOk (bs ++ [⟨i, r, c, x, y, col, true⟩]) := by
  unfold occupancyOk at *
  rw [List.pairwise_append]
  refine ⟨hocc, List.pairwise_singleton _ _, ?_⟩
  intro a ha b hb
  rcases List.mem_singleton.mp hb with rfl
  rintro ⟨hact, _, hrow, hcol⟩
  simp only [cellOccupied, List.any_eq_false] at hfree
  have hcontr := hfree a ha
  simp only [hact, hrow, hcol] at hcontr
  simp at hcontr

/-- Landing insertion preserves the occupancy invariant whenever at least
one cell within the row ceiling is free of active tokens. -/
theorem insertLanding_preserves_occupancy (rowHeight W : ℚ) (p : ℚ × ℚ)
    (color : BubbleColor) (newId : ℕ) (bs : List Bubble)
    (hocc : occupancyOk bs)
    (hfree : ∃ rc ∈ cellList, cellOccupied bs rc.1 rc.2 = false) :
    occupancyOk (insertLanding rowHeight W p color newId bs) := by
  have hsome : (cellList.foldl (scanStep rowHeight W bs p) ⟨none, 0, 0⟩).dist? ≠ none :=
    scan_fold_progress rowHeight W bs p cellList ⟨none, 0, 0⟩ hfree
  have hfreecell := scan_fold_inv rowHeight W bs p cellList ⟨none, 0, 0⟩
    (fun h => absurd rfl h) hsome
  simp only [insertLanding]
  exact occupancyOk_append_free bs newId _ _ _ _ color hocc hfreecell

/-- Row growth preserves the occupancy invariant: the shift is injective on
cells and the fresh row 0 tokens occupy pairwise distinct columns of the
vacated row. -/
theorem addNewRow_preserves_occupancy (rowHeight W : ℚ)
    (newColors : ℕ → BubbleColor) (newIds : ℕ → ℕ) (bs : List Bubble)
    (hocc : occupancyOk bs) :
    occupancyOk (addNewRow rowHeight W newColors newIds bs) := by
  unfold occupancyOk at *
  simp only [addNewRow]
  rw [List.pairwise_append]
  refine ⟨?_, ?_, ?_⟩
  · refine List.Pairwise.map _ (fun a b hab => ?_) hocc
    rintro ⟨ha, hb, hrow, hcol⟩
    refine hab ⟨ha, hb, ?_, ?_⟩
    · simpa using hrow
    · simpa using hcol
  · refine List.Pairwise.map _ (fun a b hab => ?_) (List.pairwise_lt_range GRID_COLS)
    rintro ⟨_, _, _, hcol⟩
    simp only at hcol
    omega
  · intro a ha b hb
    rintro ⟨_, _, hrow, _⟩
    obtain ⟨a0, _, rfl⟩ := List.mem_map.mp ha
    obtain ⟨c0, _, rfl⟩ := List.mem_map.mp hb
    simp at hrow

/-- Match removal preserves the occupancy invariant: deactivation only
clears active flags and never moves a token. -/
theorem checkMatches_preserves_occupancy (bs : List Bubble) (start : Bubble)
    (multiplier accuracyBonus : ℚ) (hocc : occupancyOk bs) :
    occupancyOk (checkMatches bs start multiplier accuracyBonus).1 := by
  unfold occupancyOk at *
  simp only [checkMatches]
  split
  · refine List.Pairwise.map _ (fun a b hab => ?_) hocc
    rintro ⟨ha, hb, hrow, hcol⟩
    refine hab ⟨?_, ?_, ?_, ?_⟩
    · revert ha; split <;> simp
    · revert hb; split <;> simp
    · revert hrow; split <;> split <;> simp
    · revert hcol; split <;> split <;> simp
  · exact hocc

instance (bs : List Bubble) : Decidable (occupancyOk bs) :=
  inferInstanceAs (Decidable (bs.Pairwise fun a b : Bubble =>
    ¬ (a.active = true ∧ b.active = true ∧ a.row = b.row ∧ a.col = b.col)))

/-- Grid in which every cell within the row ceiling holds an active token. -/
def fullGrid : List Bubble :=
  cellList.map fun rc => ⟨rc.1 * GRID_COLS + rc.2, rc.1, rc.2, 0, 0, .red, true⟩

set_option maxRecDepth 4000 in
/-- C4 counterexample: the occupancy invariant is not preserved by every
insert.  On a grid whose cells are all occupied by active tokens the
landing scan never finds a free cell, so the source's `bestRow = 0`,
`bestCol = 0` defaults place the new token on the already occupied cell
(0,0), and the invariant breaks after a single insert. -/
theorem occupancy_insert_counterexample :
    occupancyOk fullGrid ∧
    ¬ occupancyOk (insertLanding 38 528 (0, 0) .red 999 fullGrid) := by
  constructor
  · decide
  · decide

/-- C4 (amended).  Match removal and row growth always preserve the
occupancy invariant, and landing insertion preserves it whenever some cell
within the row ceiling is free of active tokens — in particular, after any
sequence of such operations in which every insert still finds a free cell,
no two active tokens share a cell.  (The free-cell proviso is necessary:
see `occupancy_insert_counterexample`.) -/
theorem occupancy_invariant_ops (rowHeight W : ℚ) (p : ℚ × ℚ)
    (color : BubbleColor) (newId : ℕ) (newColors : ℕ → BubbleColor)
    (newIds : ℕ → ℕ) :
    (∀ bs : List Bubble, occupancyOk bs →
      (∃ rc ∈ cellList, cellOccupied bs rc.1 rc.2 = false) →
      occupancyOk (insertLanding rowHeight W p color newId bs)) ∧
    (∀ bs : List Bubble, occupancyOk bs →
      occupancyOk (addNewRow rowHeight W newColors newIds bs)) ∧
    (∀ (bs : List Bubble) (start : Bubble) (multiplier accuracyBonus : ℚ),
      occupancyOk bs →
      occupancyOk (checkMatches bs start multiplier accuracyBonus).1) :=
  ⟨fun bs hocc hfree =>
      insertLanding_preserves_occupancy rowHeight W p color newId bs hocc hfree,
   fun bs hocc =>
      addNewRow_preserves_occupancy rowHeight W newColors newIds bs hocc,
   fun bs start multiplier accuracyBonus hocc =>
      checkMatches_preserves_occupancy bs start multiplier accuracyBonus hocc⟩

/-- C4 witness: inserting into the empty grid keeps the invariant. -/
theorem occupancy_invariant_ops_witness :
    occupancyOk (insertLanding 38 528 (0, 0) .red 0 []) :=
  (occupancy_invariant_ops 38 528 (0, 0) .red 0 (fun _ => .red) (fun c => c)).1
    [] (List.Pairwise.nil) ⟨(0, 0), by decide, rfl⟩

/-- One-token grid sitting on the last playable row. -/
def overflowGrid : List Bubble := [⟨0, 13, 0, 0, 0, .red, true⟩]

/-- C9 counterexample: shifting a token off the bottom of the playable
grid does not trigger any loss condition — `addNewRow` has no failure
output at all.  The token that lands on row `GRID_ROWS` stays in the grid
as an ordinary active token and the new top row is spawned as usual. -/
theorem addNewRow_overflow_counterexample :
    (addNewRow 38 528 (fun _ => .red) (fun c => 100 + c) overflowGrid).length =
      1 + GRID_COLS ∧
    ∃ b ∈ addNewRow 38 528 (fun _ => .red) (fun c => 100 + c) overflowGrid,
      GRID_ROWS ≤ b.row ∧ b.active = true := by
  constructor
  · simp [addNewRow, overflowGrid, GRID_COLS]
  · refine ⟨{ (⟨0, 13, 0, 0, 0, .red, true⟩ : Bubble) with
        row := 13 + 1
        x := (getBubblePos 38 528 (13 + 1) 0).1
        y := (getBubblePos 38 528 (13 + 1) 0).2 },
      List.mem_append.mpr (Or.inl (List.mem_map.mpr
        ⟨⟨0, 13, 0, 0, 0, .red, true⟩, List.mem_singleton.mpr rfl, rfl⟩)), ?_, rfl⟩
    decide

/-- C9 (amended).  Row growth increments every token's row by exactly one
and recomputes its pixel position from the new cell, appends `GRID_COLS`
fresh tokens on row 0, and removes or deactivates nothing: every token —
also one whose new row reaches the ceiling — survives with its activity
unchanged.  No loss condition is signalled; the function's only output is
the new bubble list. -/
theorem addNewRow_shifts_spec (rowHeight W : ℚ) (newColors : ℕ → BubbleColor)
    (newIds : ℕ → ℕ) (bs : List Bubble) :
    (addNewRow rowHeight W newColors newIds bs).length = bs.length + GRID_COLS ∧
    (∀ (i : ℕ) (b : Bubble), bs[i]? = some b →
      (addNewRow rowHeight W newColors newIds bs)[i]? =
        some { b with
          row := b.row + 1
          x := (getBubblePos rowHeight W (b.row + 1) b.col).1
          y := (getBubblePos rowHeight W (b.row + 1) b.col).2 }) ∧
    (∀ b ∈ bs, ∃ b2 ∈ addNewRow rowHeight W newColors newIds bs,
      b2.id = b.id ∧ b2.row = b.row + 1 ∧ b2.active = b.active) := by
  refine ⟨?_, ?_, ?_⟩
  · simp [addNewRow]
  · intro i b hb
    have hi : i < bs.length := by
      rw [List.getElem?_eq_some] at hb
      exact hb.1
    have hi2 : i < (bs.map fun b =>
        { b with
          row := b.row + 1
          x := (getBubblePos rowHeight W (b.row + 1) b.col).1
          y := (getBubblePos rowHeight W (b.row + 1) b.col).2 }).length := by
      rw [List.length_map]; exact hi
    simp only [addNewRow]
    rw [List.getElem?_append_left hi2, List.getElem?_map, hb, Option.map_some']
  · intro b hb
    exact ⟨_, List.mem_append.mpr (Or.inl (List.mem_map.mpr ⟨b, hb, rfl⟩)),
      rfl, rfl, rfl⟩

/-- C9 amended-theorem witness: the shift applied to the token on the last
playable row. -/
theorem addNewRow_shifts_spec_witness :
    ∃ b2 ∈ addNewRow 38 528 (fun _ => .red) (fun c => 100 + c) overflowGrid,
      b2.id = 0 ∧ b2.row = 13 + 1 ∧ b2.active = true :=
  (addNewRow_shifts_spec 38 528 (fun _ => .red) (fun c => 100 + c)
    overflowGrid).2.2 ⟨0, 13, 0, 0, 0, .red, true⟩ (List.mem_singleton.mpr rfl)

/-- Character-wise lower-casing (`String.toLowerCase` of the source);
defined over the character list so that it is kernel-executable. -/
def lowerString (s : String) : String := ⟨s.data.map Char.toLower⟩

/-- Character-wise upper-casing (`String.toUpperCase` of the source). -/
def upperString (s : String) : String := ⟨s.data.map Char.toUpper⟩

/-- Shot candidate handed to the advisor (`TargetCandidate` in the service
module).  `color` is the raw color string used at the service layer. -/
structure TargetCandidate where
  id : ℕ
  color : String
  size : ℕ
  row : ℕ
  col : ℕ
  pointsPerBubble : ℕ
deriving DecidableEq, Repr

/-- Advisor hint (`StrategicHint` in the service module): every field but
the message is optional. -/
structure StrategicHint where
  message : String
  rationale : Option String
  targetRow : Option ℕ
  targetCol : Option ℕ
  recommendedColor : Option String
  suggestSkip : Option Bool
deriving DecidableEq, Repr

/-- Comparator of the fallback sort in `getBestLocalTarget`:
`(scoreB - scoreA) || (a.row - b.row)` — `a` sorts before `b` when its
cluster score `size * pointsPerBubble` is strictly larger, or on equal
scores when its row is strictly smaller. -/
def candBefore (a b : TargetCandidate) : Bool :=
  decide (b.size * b.pointsPerBubble < a.size * a.pointsPerBubble) ||
  (decide (a.size * a.pointsPerBubble = b.size * b.pointsPerBubble) &&
   decide (a.row < b.row))

/-- First element of the stable sort by `candBefore`
(`validTargets.sort(...)[0]` in the source): the fold keeps the incumbent
unless a later candidate is strictly earlier in the comparator order, which
is exactly the first minimal element a stable sort puts in front. -/
def pickBest : List TargetCandidate → Option TargetCandidate
  | [] => none
  | c :: rest =>
    some (rest.foldl (fun best a => if candBefore a best then a else best) c)

/-- Local fallback recommendation (`getBestLocalTarget`): with candidates
available it emits the best one as message, aim cell and recommended
color; with none it emits the generic message with no aim point. -/
def getBestLocalTarget (validTargets : List TargetCandidate) (msg : String) :
    StrategicHint :=
  match pickBest validTargets with
  | some best =>
    { message := "Fallback: Select " ++ upperString best.color ++ " at Row " ++
        toString best.row
      rationale := some "Selected based on highest potential cluster score available locally."
      targetRow := some best.row
      targetCol := some best.col
      recommendedColor := some best.color
      suggestSkip := none }
  | none =>
    { message := msg
      rationale := some "No valid clusters found to target."
      targetRow := none
      targetCol := none
      recommendedColor := none
      suggestSkip := none }

/-- Unfolding of the comparator into arithmetic. -/
theorem candBefore_iff (a b : TargetCandidate) : candBefore a b = true ↔
    (b.size * b.pointsPerBubble < a.size * a.pointsPerBubble ∨
     (a.size * a.pointsPerBubble = b.size * b.pointsPerBubble ∧ a.row < b.row)) := by
  simp [candBefore]

/-- Negated comparator as arithmetic. -/
theorem candBefore_eq_false_iff (a b : TargetCandidate) : candBefore a b = false ↔
    ¬ (b.size * b.pointsPerBubble < a.size * a.pointsPerBubble ∨
       (a.size * a.pointsPerBubble = b.size * b.pointsPerBubble ∧ a.row < b.row)) := by
  rw [← Bool.not_eq_true, candBefore_iff]

/-- The comparator order never prefers a candidate to itself. -/
theorem candBefore_irrefl (a : TargetCandidate) : candBefore a a = false := by
  rw [candBefore_eq_false_iff]
  omega

/-- A candidate beaten by the new incumbent stays beaten. -/
theorem candBefore_shift (a b r : TargetCandidate)
    (h1 : candBefore a b = true) (h2 : candBefore a r = false) :
    candBefore b r = false := by
  rw [candBefore_iff] at h1
  rw [candBefore_eq_false_iff] at h2 ⊢
  omega

/-- Losing against the incumbent transfers along the fold. -/
theorem candBefore_trans_false (a b r : TargetCandidate)
    (h1 : candBefore a b = false) (h2 : candBefore b r = false) :
    candBefore a r = false := by
  rw [candBefore_eq_false_iff] at h1 h2 ⊢
  omega

/-- Fold invariant of the fallback selection: the result is the incumbent
or one of the scanned candidates, and nobody sorts strictly before it. -/
theorem pickBest_fold :
    ∀ (l : List TargetCandidate) (b0 : TargetCandidate),
      (l.foldl (fun best a => if candBefore a best then a else best) b0 = b0 ∨
       l.foldl (fun best a => if candBefore a best then a else best) b0 ∈ l) ∧
      ∀ c ∈ b0 :: l,
        candBefore c (l.foldl (fun best a => if candBefore a best then a else best) b0) = false := by
  intro l
  induction l with
  | nil =>
    intro b0
    refine ⟨Or.inl rfl, ?_⟩
    intro c hc
    rcases List.mem_singleton.mp hc with rfl
    exact candBefore_irrefl c
  | cons a t ih =>
    intro b0
    rw [List.foldl_cons]
    by_cases hrep : candBefore a b0 = true
    · rw [if_pos hrep]
      obtain ⟨hmem, hall⟩ := ih a
      refine ⟨?_, ?_⟩
      · rcases hmem with h | h
        · exact Or.inr (by rw [h]; exact List.mem_cons_self _ _)
        · exact Or.inr (List.mem_cons_of_mem _ h)
      · intro c hc
        rcases List.mem_cons.mp hc with rfl | hc
        · exact candBefore_shift a c _ hrep (hall a (List.mem_cons_self _ _))
        · rcases List.mem_cons.mp hc with rfl | hc
          · exact hall c (List.mem_cons_self _ _)
          · exact hall c (List.mem_cons_of_mem _ hc)
    · rw [if_neg hrep]
      obtain ⟨hmem, hall⟩ := ih b0
      refine ⟨?_, ?_⟩
      · rcases hmem with h | h
        · exact Or.inl h
        · exact Or.inr (List.mem_cons_of_mem _ h)
      · intro c hc
        rcases List.mem_cons.mp hc with rfl | hc
        · exact hall c (List.mem_cons_self _ _)
        · rcases List.mem_cons.mp hc with rfl | hc
          · exact candBefore_trans_false c b0 _
              (Bool.not_eq_true _ ▸ hrep) (hall b0 (List.mem_cons_self _ _))
          · exact hall c (List.mem_cons_of_mem _ hc)

/-- Concrete candidate list of the specification scenario: sizes 2 and 4
with per-token values 150 and 100. -/
def demoCandidates : List TargetCandidate :=
  [⟨1, "red", 2, 4, 0, 150⟩, ⟨2, "blue", 4, 6, 1, 100⟩]

/-- C7.  The local fallback is deterministic and selects, among a
non-empty candidate list, a candidate maximizing `size * pointsPerBubble`
with ties broken by the smallest row, and emits its cell as the aim point
and its color as the recommendation; with an empty candidate list it emits
the generic message with no aim point.  On the scenario candidates
(size 2 / value 150 versus size 4 / value 100) it picks the size-4
candidate (400 > 300). -/
theorem getBestLocalTarget_spec (msg : String) :
    (∀ l : List TargetCandidate, l ≠ [] →
      ∃ best, pickBest l = some best ∧ best ∈ l ∧
        (∀ c ∈ l, c.size * c.pointsPerBubble ≤ best.size * best.pointsPerBubble) ∧
        (∀ c ∈ l, c.size * c.pointsPerBubble = best.size * best.pointsPerBubble →
          best.row ≤ c.row) ∧
        (getBestLocalTarget l msg).targetRow = some best.row ∧
        (getBestLocalTarget l msg).targetCol = some best.col ∧
        (getBestLocalTarget l msg).recommendedColor = some best.color) ∧
    ((getBestLocalTarget [] msg).targetRow = none ∧
     (getBestLocalTarget [] msg).targetCol = none ∧
     (getBestLocalTarget [] msg).message = msg) ∧
    (getBestLocalTarget demoCandidates msg).targetRow = some 6 ∧
    (getBestLocalTarget demoCandidates msg).targetCol = some 1 ∧
    (getBestLocalTarget demoCandidates msg).recommendedColor = some "blue" := by
  refine ⟨?_, ⟨rfl, rfl, rfl⟩, rfl, rfl, rfl⟩
  intro l hl
  match l with
  | [] => exact absurd rfl hl
  | c :: rest =>
    obtain ⟨hmem, hall⟩ := pickBest_fold rest c
    refine ⟨rest.foldl (fun best a => if candBefore a best then a else best) c,
      rfl, ?_, ?_, ?_, rfl, rfl, rfl⟩
    · rcases hmem with h | h
      · rw [h]; exact List.mem_cons_self _ _
      · exact List.mem_cons_of_mem _ h
    · intro cand hcand
      have := hall cand hcand
      rw [candBefore_eq_false_iff] at this
      omega
    · intro cand hcand heq
      have := hall cand hcand
      rw [candBefore_eq_false_iff] at this
      omega

/-- C7 witness: the fallback selection applied to the scenario candidate
list. -/
theorem getBestLocalTarget_spec_witness :
    ∃ best, pickBest demoCandidates = some best ∧ best ∈ demoCandidates ∧
      (∀ c ∈ demoCandidates,
        c.size * c.pointsPerBubble ≤ best.size * best.pointsPerBubble) ∧
      (∀ c ∈ demoCandidates,
        c.size * c.pointsPerBubble = best.size * best.pointsPerBubble →
          best.row ≤ c.row) ∧
      (getBestLocalTarget demoCandidates "no signal").targetRow = some best.row ∧
      (getBestLocalTarget demoCandidates "no signal").targetCol = some best.col ∧
      (getBestLocalTarget demoCandidates "no signal").recommendedColor =
        some best.color :=
  (getBestLocalTarget_spec "no signal").1 demoCandidates (List.cons_ne_nil _ _)

/-- Raw advisor response fields as parsed from JSON in `getStrategicHint`;
any field may be absent, and `message` may also be present but empty. -/
structure RawHint where
  message : Option String
  rationale : Option String
  targetRow : Option ℕ
  targetCol : Option ℕ
  recommendedColor : Option String
  suggestSkip : Option Bool
deriving DecidableEq, Repr

/-- Normalization performed on a parsed advisor response:
`message := json.message || "Ready!"` (JS falsiness: absent or empty
string falls back), `recommendedColor := json.recommendedColor?.toLowerCase()`,
everything else passed through unchanged.  No palette membership test and
no grid-bounds test occurs here. -/
def normalizeHint (raw : RawHint) : StrategicHint :=
  { message := match raw.message with
      | some m => if m = "" then "Ready!" else m
      | none => "Ready!"
    rationale := raw.rationale
    targetRow := raw.targetRow
    targetCol := raw.targetCol
    recommendedColor := raw.recommendedColor.map lowerString
    suggestSkip := raw.suggestSkip }

/-- Palette of color names at the service layer (`COLOR_KEYS`). -/
def paletteNames : List String :=
  ["red", "blue", "green", "yellow", "purple", "orange"]

/-- UI state touched when an advisor hint arrives in `performAiAnalysis`. -/
structure UiState where
  aiHint : String
  aiRationale : Option String
  showSkipConfirm : Bool
  aiRecommendedColor : Option String
  selectedColor : String
  aimTarget : Option (ℚ × ℚ)
deriving DecidableEq, Repr

/-- Application of a normalized hint to the UI state (the response
continuation of `performAiAnalysis`): message and rationale are always
stored; a true `suggestSkip` raises the skip confirmation; when both
`targetRow` and `targetCol` are present (the `typeof === 'number'`
checks), a present non-empty recommended color is applied as-is and the
target cell is converted by `getBubblePos` and stored as the aim point —
with no palette validation and no grid-bounds check. -/
def applyHint (rowHeight W : ℚ) (hint : StrategicHint) (s : UiState) : UiState :=
  let s1 := { s with aiHint := hint.message }
  let s2 := { s1 with aiRationale := hint.rationale }
  let s3 := if hint.suggestSkip = some true then
    { s2 with showSkipConfirm := true } else s2
  match hint.targetRow, hint.targetCol with
  | some r, some c =>
    let s4 := match hint.recommendedColor with
      | some cl =>
        if cl ≠ "" then
          { s3 with
            aiRecommendedColor := some cl
            selectedColor := cl }
        else s3
      | none => s3
    { s4 with aimTarget := some (getBubblePos rowHeight W r c) }
  | _, _ => s3

/-- Malformed advisor response of the counterexample: an out-of-palette
color and a target row far beyond the playable grid. -/
def badRaw : RawHint := ⟨some "hit", none, some 100, some 2, some "PINK", none⟩

/-- Initial UI state of the counterexample. -/
def initUi : UiState := ⟨"", none, false, none, "red", none⟩

/-- C8 counterexample: the offending fields are not discarded.  The
out-of-palette color "PINK" is merely lower-cased and then applied as the
selected color, and the out-of-grid cell (100, 2) is converted to a pixel
aim point and stored, although row 100 exceeds the playable ceiling. -/
theorem advisor_validation_counterexample :
    (normalizeHint badRaw).recommendedColor = some "pink" ∧
    "pink" ∉ paletteNames ∧
    (applyHint 38 528 (normalizeHint badRaw) initUi).selectedColor = "pink" ∧
    GRID_ROWS ≤ 100 ∧
    (applyHint 38 528 (normalizeHint badRaw) initUi).aimTarget =
      some (getBubblePos 38 528 100 2) := by
  refine ⟨by decide, by decide, by decide, by decide, rfl⟩

/-- C8 (amended).  The recommended color is lower-cased by normalization
and `targetRow`/`targetCol` pass through; the aim point and the color are
applied only when both target fields are present, and a hint without a
recommended color changes neither the selected color nor the
recommendation — but a present color is applied without palette
validation, and a present target pair is converted to an aim point without
any grid-bounds check (`r` and `c` below are arbitrary). -/
theorem advisor_normalization_spec (rowHeight W : ℚ) (raw : RawHint)
    (s : UiState) :
    ((normalizeHint raw).recommendedColor = raw.recommendedColor.map lowerString) ∧
    ((normalizeHint raw).targetRow = raw.targetRow ∧
     (normalizeHint raw).targetCol = raw.targetCol) ∧
    (∀ (hint : StrategicHint) (r c : ℕ),
      hint.targetRow = some r → hint.targetCol = some c →
      (applyHint rowHeight W hint s).aimTarget =
        some (getBubblePos rowHeight W r c)) ∧
    (∀ hint : StrategicHint, hint.targetRow = none ∨ hint.targetCol = none →
      (applyHint rowHeight W hint s).aimTarget = s.aimTarget ∧
      (applyHint rowHeight W hint s).selectedColor = s.selectedColor ∧
      (applyHint rowHeight W hint s).aiRecommendedColor = s.aiRecommendedColor) ∧
    (∀ hint : StrategicHint, hint.recommendedColor = none →
      (applyHint rowHeight W hint s).selectedColor = s.selectedColor ∧
      (applyHint rowHeight W hint s).aiRecommendedColor = s.aiRecommendedColor) := by
  refine ⟨rfl, ⟨rfl, rfl⟩, ?_, ?_, ?_⟩
  · intro hint r c hr hc
    simp only [applyHint, hr, hc]
  · intro hint h
    rcases h with hr | hc
    · simp only [applyHint, hr]
      refine ⟨?_, ?_, ?_⟩ <;> (split <;> rfl)
    · rcases hr2 : hint.targetRow with _ | r
      · simp only [applyHint, hr2, hc]
        refine ⟨?_, ?_, ?_⟩ <;> (split <;> rfl)
      · simp only [applyHint, hr2, hc]
        refine ⟨?_, ?_, ?_⟩ <;> (split <;> rfl)
  · intro hint hcol
    rcases hr2 : hint.targetRow with _ | r
    · simp only [applyHint, hr2]
      refine ⟨?_, ?_⟩ <;> (split <;> rfl)
    · rcases hc2 : hint.targetCol with _ | c
      · simp only [applyHint, hr2, hc2]
        refine ⟨?_, ?_⟩ <;> (split <;> rfl)
      · simp only [applyHint, hr2, hc2, hcol]
        refine ⟨?_, ?_⟩ <;> (split <;> rfl)

/-- C8 witness: a response carrying only a numeric target pair updates the
aim point (and by the other conjuncts leaves the ammo color unchanged),
matching the specification scenario `targetRow 4, targetCol 2`. -/
theorem advisor_normalization_spec_witness :
    (applyHint 38 528 ⟨"m", none, some 4, some 2, none, none⟩ initUi).aimTarget =
      some (getBubblePos 38 528 4 2) :=
  (advisor_normalization_spec 38 528 badRaw initUi).2.2.1
    ⟨"m", none, some 4, some 2, none, none⟩ 4 2 rfl rfl

/-- Difficulty levels (`DIFFICULTY_SETTINGS` keys). -/
inductive Difficulty where
  | easy | medium | hard | veryHard
deriving DecidableEq, Repr

/-- Rows at round start, per difficulty. -/
def startingRows : Difficulty → ℕ
  | .easy => 3
  | .medium => 5
  | .hard => 7
  | .veryHard => 9

/-- Shots between two row growths, per difficulty (`newRowFrequency`). -/
def newRowFrequency : Difficulty → ℕ
  | .easy => 12
  | .medium => 8
  | .hard => 5
  | .veryHard => 3

/-- Score multiplier per difficulty (`pointsMultiplier`). -/
def pointsMultiplier : Difficulty → ℚ
  | .easy => 4 / 5
  | .medium => 1
  | .hard => 3 / 2
  | .veryHard => 5 / 2

/-- Game-state slice relevant to shot counting and row growth. -/
structure GameState where
  shotsTaken : ℕ
  bubbles : List Bubble
  showSkipConfirm : Bool
  captureRequest : Bool
deriving Repr

/-- Shot-counter and row-growth effect of a launched shot (the release
branch of `onResults`): the counter increments and, when the new count is
a multiple of the difficulty's interval, a new top row is added. -/
def launchGrowth (diff : Difficulty) (rowHeight W : ℚ)
    (newColors : ℕ → BubbleColor) (newIds : ℕ → ℕ) (s : GameState) : GameState :=
  let shots := s.shotsTaken + 1
  { s with
    shotsTaken := shots
    bubbles := (if shots % newRowFrequency diff = 0 then
      addNewRow rowHeight W newColors newIds s.bubbles else s.bubbles) }

/-- Confirming a skip (`skipTurn`): closes the confirmation dialog,
increments the shot counter, adds a new top row at exactly the interval of
a launched shot, and requests a fresh capture for the next analysis
cycle. -/
def skipTurn (diff : Difficulty) (rowHeight W : ℚ)
    (newColors : ℕ → BubbleColor) (newIds : ℕ → ℕ) (s : GameState) : GameState :=
  let s1 := { s with showSkipConfirm := false }
  let shots := s1.shotsTaken + 1
  let s2 := { s1 with shotsTaken := shots }
  let s3 := { s2 with bubbles := (if shots % newRowFrequency diff = 0 then
      addNewRow rowHeight W newColors newIds s2.bubbles else s2.bubbles) }
  { s3 with captureRequest := true }

/-- C10.  Confirming a skip behaves exactly like a resolved shot with
respect to row growth: the shot counter increments by one, and the grid
gains a new top row precisely when the incremented counter is a multiple
of the difficulty's row interval — so row growth can be triggered without
ever launching a projectile. -/
theorem skipTurn_growth (diff : Difficulty) (rowHeight W : ℚ)
    (newColors : ℕ → BubbleColor) (newIds : ℕ → ℕ) (s : GameState) :
    (skipTurn diff rowHeight W newColors newIds s).shotsTaken = s.shotsTaken + 1 ∧
    (skipTurn diff rowHeight W newColors newIds s).shotsTaken =
      (launchGrowth diff rowHeight W newColors newIds s).shotsTaken ∧
    (skipTurn diff rowHeight W newColors newIds s).bubbles =
      (launchGrowth diff rowHeight W newColors newIds s).bubbles ∧
    ((s.shotsTaken + 1) % newRowFrequency diff = 0 →
      (skipTurn diff rowHeight W newColors newIds s).bubbles =
        addNewRow rowHeight W newColors newIds s.bubbles) ∧
    ((s.shotsTaken + 1) % newRowFrequency diff ≠ 0 →
      (skipTurn diff rowHeight W newColors newIds s).bubbles = s.bubbles) ∧
    (skipTurn diff rowHeight W newColors newIds s).showSkipConfirm = false := by
  refine ⟨rfl, rfl, rfl, ?_, ?_, rfl⟩
  · intro h
    simp only [skipTurn]
    rw [if_pos h]
  · intro h
    simp only [skipTurn]
    rw [if_neg h]

/-- C10 witness: from seven shots taken on medium difficulty (interval 8),
a single confirmed skip adds the new top row. -/
theorem skipTurn_growth_witness :
    (skipTurn .medium 38 528 (fun _ => .red) (fun c => c)
      ⟨7, [], true, false⟩).bubbles =
      addNewRow 38 528 (fun _ => .red) (fun c => c) [] :=
  (skipTurn_growth .medium 38 528 (fun _ => .red) (fun c => c)
    ⟨7, [], true, false⟩).2.2.2.1 (by decide)
